import Mathlib

/-!
Verification of the HLS session and segmentation subsystem of the
openai-edge-tts repository (src/app/hls_handler.py, src/app/server.py).

The Python code is shallowly embedded: every Lean definition below mirrors a
function or method of the source, with file I/O represented as explicit state
(the playlist is the list of its lines, the segment directory is a list of
written files) and subprocess calls (ffprobe) represented by an explicit
outcome parameter.  Machine arithmetic on durations uses exact rationals;
the Python expressions involved (len(chunk) / (128 * 1000 / 8),
file_size / (192 * 128 / 8), int(x) + 1) are exact in IEEE double for the
ranges involved, so the rational model is faithful.
-/

/-- Python `int(q)` truncates toward zero: `int(5.7) = 5`, `int(-5.7) = -5`. -/
def pyInt (q : ℚ) : ℤ :=
  if q < 0 then ⌈q⌉ else ⌊q⌋

/-- Python truthiness of the `error` attribute (`None` and the empty string are
falsy, any non-empty string is truthy), as used by
`if self.completed or self.error:` in `add_audio_chunk`. -/
def pyTruthy : Option String → Bool
  | none => false
  | some s => !s.isEmpty

/-- One line of the playlist file `playlist.m3u8`.  Each constructor stands for
the literal text line the Python code writes or tests for:
`header` = "#EXTM3U", `version n` = "#EXT-X-VERSION:n",
`targetDuration t` = "#EXT-X-TARGETDURATION:t",
`playlistType` = "#EXT-X-PLAYLIST-TYPE:EVENT",
`mediaSeq n` = "#EXT-X-MEDIA-SEQUENCE:n",
`extinf d` = "#EXTINF:d.3f," (duration with three decimals),
`segRef f` = the bare segment filename line,
`endList` = "#EXT-X-ENDLIST". -/
inductive PLine where
  | header : PLine
  | version : Nat → PLine
  | targetDuration : ℤ → PLine
  | playlistType : PLine
  | mediaSeq : Nat → PLine
  | extinf : ℚ → PLine
  | segRef : String → PLine
  | endList : PLine
deriving DecidableEq, Repr

/-- Model of `HLSSession._initialize_playlist` (hls_handler.py lines 44-55): writes the
header with version 3, target duration `int(self.segment_duration) + 1`,
playlist type EVENT and media sequence 0. -/
def initialize_playlist (segmentDuration : ℚ) : List PLine :=
  [PLine.header, PLine.version 3, PLine.targetDuration (pyInt segmentDuration + 1),
   PLine.playlistType, PLine.mediaSeq 0]

/-- Per-line body of the `for i, line in enumerate(playlist_lines)` loop in
`_update_playlist` (hls_handler.py lines 128-133): a
"#EXT-X-TARGETDURATION:" line is raised to `int(duration) + 1` when that
exceeds the recorded value; every other line is left unchanged. -/
def bumpTarget (duration : ℚ) : PLine → PLine
  | PLine.targetDuration t =>
      if pyInt duration + 1 > t then PLine.targetDuration (pyInt duration + 1)
      else PLine.targetDuration t
  | other => other

/-- Model of `HLSSession._update_playlist` (hls_handler.py lines 119-137): re-reads the
playlist, pops a trailing "#EXT-X-ENDLIST" line if present, raises any
"#EXT-X-TARGETDURATION:" line to `int(duration) + 1` when that exceeds the
recorded value, then appends the "#EXTINF:duration," line and the segment
filename line and rewrites the file.  The stripped end marker is NOT
re-appended by the code. -/
def update_playlist (lines : List PLine) (segmentFilename : String) (duration : ℚ) :
    List PLine :=
  let afterPop :=
    if lines.getLast? = some PLine.endList then lines.dropLast else lines
  afterPop.map (bumpTarget duration) ++ [PLine.extinf duration, PLine.segRef segmentFilename]

/-- Outcome of the `ffprobe` subprocess run in `_get_segment_duration`
(hls_handler.py lines 105-117).  The `except` clause catches exactly
`subprocess.CalledProcessError`, `ValueError` and `subprocess.TimeoutExpired`;
a missing `ffprobe` binary raises `FileNotFoundError`, which is not in that
tuple and therefore propagates to the caller. -/
inductive ProbeOutcome where
  | ok : ℚ → ProbeOutcome
  | calledProcessError : ProbeOutcome
  | valueError : ProbeOutcome
  | timeoutExpired : ProbeOutcome
  | fileNotFound : ProbeOutcome
deriving DecidableEq, Repr

/-- State of an `HLSSession` (raw MP3-segment variant, hls_handler.py lines
23-172).  A buffered chunk is modelled by its byte length (the claims under
verification depend only on sizes and counts); a written segment file is
recorded as its (sequence number, byte size) pair.  The playlist file is the
list of its lines.  `created_at` is modelled in the session registry below,
which is the only reader of that attribute. -/
structure HLSSession where
  sessionId : String
  segmentDuration : ℚ
  currentSegmentBuffer : List Nat
  currentSegmentDuration : ℚ
  segmentCounter : Nat
  completed : Bool
  error : Option String
  playlist : List PLine
  segments : List (Nat × Nat)
deriving DecidableEq, Repr

/-- Model of `HLSSession.__init__` (hls_handler.py lines 26-42). -/
def initSession (sid : String) (segmentDuration : ℚ) : HLSSession :=
  { sessionId := sid
    segmentDuration := segmentDuration
    currentSegmentBuffer := []
    currentSegmentDuration := 0
    segmentCounter := 0
    completed := false
    error := none
    playlist := initialize_playlist segmentDuration
    segments := [] }

/-- Zero-padded three-digit decimal rendering matching the Python format
specifier 03d. -/
def pad3 (n : Nat) : String :=
  if n < 10 then "00" ++ toString n
  else if n < 100 then "0" ++ toString n
  else toString n

/-- Segment filename segmentNNN.mp3 with the counter zero-padded to three
digits (hls_handler.py line 97). -/
def segmentName (n : Nat) : String :=
  "segment" ++ pad3 n ++ ".mp3"

/-- Model of `HLSSession._get_segment_duration` (hls_handler.py lines 105-117): on a
successful probe returns the parsed duration; on `CalledProcessError`,
`ValueError` or `TimeoutExpired` falls back to
`file_size / (192 * 128 / 8)`, floored by `self.current_segment_duration`
when that is positive (note `_finalize_segment` resets that attribute to 0
before calling this, so sequentially the floor compares against 0); on a
missing ffprobe binary the `FileNotFoundError` is not caught and
propagates. -/
def get_segment_duration (s : HLSSession) (fileSize : Nat) (probe : ProbeOutcome) :
    Except String ℚ :=
  match probe with
  | ProbeOutcome.ok d => Except.ok d
  | ProbeOutcome.fileNotFound => Except.error "FileNotFoundError: ffprobe"
  | _ =>
      let estimated : ℚ := (fileSize : ℚ) / (192 * 128 / 8)
      Except.ok (if s.currentSegmentDuration > 0
                 then max estimated s.currentSegmentDuration
                 else estimated)

/-- Session state in the middle of `_finalize_segment` (hls_handler.py lines
84-101): after the under-lock buffer swap, estimate reset and counter bump,
and after the segment file of `sum(len(chunk))` bytes has been written,
but before the duration probe runs.  `self.current_segment_duration` is 0
here, which is what the probe fallback's floor compares against. -/
def afterWrite (s : HLSSession) : HLSSession :=
  { s with currentSegmentBuffer := []
           currentSegmentDuration := 0
           segmentCounter := s.segmentCounter + 1
           segments := s.segments ++ [(s.segmentCounter + 1, s.currentSegmentBuffer.sum)] }

/-- Model of `HLSSession._finalize_segment` (hls_handler.py lines 82-103): if the buffer
is empty, do nothing; otherwise swap the buffer for an empty one, reset the
duration estimate to 0, bump the counter, write the buffered bytes to
segmentNNN.mp3 (the `afterWrite` state), probe the duration and
append the playlist entry.  An uncaught probe exception propagates. -/
def finalize_segment (s : HLSSession) (probe : ProbeOutcome) :
    Except String HLSSession :=
  if s.currentSegmentBuffer.isEmpty then Except.ok s
  else
    match get_segment_duration (afterWrite s) s.currentSegmentBuffer.sum probe with
    | Except.error e => Except.error e
    | Except.ok d =>
        Except.ok { afterWrite s with
          playlist := update_playlist (afterWrite s).playlist
            (segmentName (s.segmentCounter + 1)) d }

/-- Buffer state after the under-lock part of `add_audio_chunk`
(hls_handler.py lines 64-69): the chunk is appended and
`len(chunk) / (128 * 1000 / 8)` is added to the running duration
estimate. -/
def afterAppend (s : HLSSession) (chunkLen : Nat) : HLSSession :=
  { s with currentSegmentBuffer := s.currentSegmentBuffer ++ [chunkLen]
           currentSegmentDuration :=
             s.currentSegmentDuration + (chunkLen : ℚ) / (128 * 1000 / 8) }

/-- Trigger decision of `add_audio_chunk` (hls_handler.py lines 71-77): the
duration estimate reached `segment_duration`, or the chunk count reached the
safety cap of 50. -/
def shouldFinalize (s : HLSSession) (chunkLen : Nat) : Bool :=
  decide (s.segmentDuration ≤ (afterAppend s chunkLen).currentSegmentDuration) ||
    decide (50 ≤ (afterAppend s chunkLen).currentSegmentBuffer.length)

/-- Model of `HLSSession.add_audio_chunk` (hls_handler.py lines 57-80): no-op when
`self.completed or self.error` is truthy; otherwise append the chunk and
update the estimate (`afterAppend`), then finalize the segment when one of
the two triggers fires (`shouldFinalize`). -/
def add_audio_chunk (s : HLSSession) (chunkLen : Nat) (probe : ProbeOutcome) :
    Except String HLSSession :=
  if s.completed || pyTruthy s.error then Except.ok s
  else if shouldFinalize s chunkLen then finalize_segment (afterAppend s chunkLen) probe
  else Except.ok (afterAppend s chunkLen)

/-- Model of `HLSSession.finalize` (hls_handler.py lines 139-156): return immediately if
already completed; otherwise drain a non-empty buffer via
`_finalize_segment`, append "#EXT-X-ENDLIST" to the playlist file, and set
`completed`.  (The playlist file always exists: it is written in
`__init__`.) -/
def finalize (s : HLSSession) (probe : ProbeOutcome) : Except String HLSSession :=
  if s.completed then Except.ok s
  else
    match
      (if s.currentSegmentBuffer.length > 0 then finalize_segment s probe
       else Except.ok s) with
    | Except.error e => Except.error e
    | Except.ok s1 =>
        Except.ok { s1 with playlist := s1.playlist ++ [PLine.endList], completed := true }

instance {ε α : Type} [DecidableEq ε] [DecidableEq α] : DecidableEq (Except ε α) :=
  fun a b =>
    match a, b with
    | Except.ok x, Except.ok y =>
        if h : x = y then Decidable.isTrue (by rw [h])
        else Decidable.isFalse (by simp [h])
    | Except.ok _, Except.error _ => Decidable.isFalse (by simp)
    | Except.error _, Except.ok _ => Decidable.isFalse (by simp)
    | Except.error x, Except.error y =>
        if h : x = y then Decidable.isTrue (by rw [h])
        else Decidable.isFalse (by simp [h])

/-- Result of running an `HLSSession` method under the session's
non-reentrant `threading.Lock` (hls_handler.py line 35): `completedRun` when
the method body ran, `deadlock s` when the method blocked forever trying to
re-acquire a lock the calling thread already holds, with `s` the session
state at the moment of blocking. -/
inductive LockResult where
  | completedRun : Except String HLSSession → LockResult
  | deadlock : HLSSession → LockResult
deriving DecidableEq, Repr

/-- Model of `HLSSession.finalize` viewed with the lock discipline explicit: the first
statement of `finalize` is `with self.lock:`, so a caller that already holds
the session lock blocks forever (`threading.Lock` is not reentrant). -/
def finalize_locked (callerHoldsLock : Bool) (s : HLSSession) (probe : ProbeOutcome) :
    LockResult :=
  if callerHoldsLock then LockResult.deadlock s
  else LockResult.completedRun (finalize s probe)

/-- Model of `HLSSession.set_error` (hls_handler.py lines 158-161): acquires
`self.lock`, records the error, and calls `self.finalize()` while still
holding the lock, so the `finalize` call is made with the lock held. -/
def set_error (s : HLSSession) (msg : String) (probe : ProbeOutcome) : LockResult :=
  finalize_locked true { s with error := some msg } probe

/-- Fold of `add_audio_chunk` over a chunk list: feeding a list of chunks into a session in
order, as `generate_hls_stream` (hls_handler.py lines 289-295) does.  All
probe runs are given the same outcome parameter. -/
def runChunks (s : HLSSession) (chunks : List Nat) (probe : ProbeOutcome) :
    Except String HLSSession :=
  chunks.foldlM (fun acc c => add_audio_chunk acc c probe) s

/-- State of an `HLSSessionFFmpeg` (hls_handler.py lines 175-254): the session
that pipes MP3 chunks into a real-time ffmpeg encoder.  `procExists` models
`self.ffmpeg_proc is not None`; `stdinOpen` models whether the encoder's
stdin pipe is still open (after `finalize` it is closed, but the
`self.ffmpeg_proc.stdin` attribute remains a truthy closed file object);
`written` records the chunk sizes successfully written to the pipe. -/
structure FFSession where
  sessionId : String
  completed : Bool
  error : Option String
  procExists : Bool
  stdinOpen : Bool
  written : List Nat
deriving DecidableEq, Repr

/-- Message of the `ValueError` CPython raises when writing to a closed
buffered pipe, as stringified by `set_error(str(e))`. -/
def ffClosedStdinMsg : String := "I/O operation on closed file."

/-- Model of `HLSSessionFFmpeg.add_audio_chunk` (hls_handler.py lines 218-225): returns
early only when `self.ffmpeg_proc` or its `stdin` attribute is missing;
otherwise writes the chunk to the encoder's stdin.  There is no check of
`completed` or `error`; if the write raises (stdin already closed), the
exception is caught and `set_error(str(e))` records it. -/
def ff_add_audio_chunk (t : FFSession) (chunkLen : Nat) : FFSession :=
  if !t.procExists then t
  else if t.stdinOpen then { t with written := t.written ++ [chunkLen] }
  else { t with error := some ffClosedStdinMsg }

/-- Model of `HLSSessionFFmpeg.set_error` (hls_handler.py lines 242-244): records the
error only; unlike the raw-segment variant it does not call finalize. -/
def ff_set_error (t : FFSession) (msg : String) : FFSession :=
  { t with error := some msg }

/-- Model of `HLSSessionFFmpeg.finalize` (hls_handler.py lines 227-240): closes the
encoder's stdin, waits for the process, and marks the session completed. -/
def ff_finalize (t : FFSession) : FFSession :=
  { t with stdinOpen := false, completed := true }

/-- One entry of the global `_sessions` registry, as seen by the janitor
(hls_handler.py lines 257-330): a session id together with the session's
`created_at` timestamp in seconds. -/
structure RegSession where
  sid : String
  createdAt : ℚ
deriving DecidableEq, Repr

/-- Model of `get_hls_session` (hls_handler.py lines 274-276): lock-protected dictionary
lookup, modelled as first-match search in the association list. -/
def get_hls_session (reg : List RegSession) (sid : String) : Option RegSession :=
  reg.find? (fun e => decide (e.sid = sid))

/-- Model of `cleanup_old_sessions` (hls_handler.py lines 312-330): computes each
session's age as `(current_time - created_at).total_seconds()`, collects the
ids with age strictly greater than the timeout, then pops each collected id
from the registry and calls `cleanup()` on it (destruction).  Returns the
remaining registry together with the list of destroyed ids (the code returns
its length). -/
def cleanup_old_sessions (reg : List RegSession) (now timeout : ℚ) :
    List RegSession × List String :=
  let sessionsToRemove :=
    (reg.filter (fun e => decide (timeout < now - e.createdAt))).map (fun e => e.sid)
  (reg.filter (fun e => !sessionsToRemove.contains e.sid), sessionsToRemove)

/-- Python `str.split('/')` (the component parsing `pathlib` applies to the
argument of the `/` operator), over the string's character list. -/
def splitSlashAux : List Char → List Char → List String
  | [], acc => [String.mk acc.reverse]
  | c :: rest, acc =>
      if c = '/' then String.mk acc.reverse :: splitSlashAux rest []
      else splitSlashAux rest (c :: acc)

/-- Split a string on '/' characters. -/
def splitSlash (s : String) : List String :=
  splitSlashAux s.data []

/-- Whether the string begins with '/' (an absolute path argument makes
`pathlib` discard the left operand of `/`). -/
def startsWithSlash (s : String) : Bool :=
  match s.data with
  | c :: _ => c = '/'
  | [] => false

/-- Join of segment_dir with segment_filename in `pathlib` semantics: the argument
is split on '/', empty and "." components are dropped ('..' is kept), and an
absolute argument replaces the base path.  Paths are lists of components. -/
def joinPath (dir : List String) (name : String) : List String :=
  let comps := (splitSlash name).filter (fun c => c ≠ "" && c ≠ ".")
  if startsWithSlash name then comps else dir ++ comps

/-- Lexical resolution the operating system applies when `Path.exists()` stats
the joined path (no symlinks assumed): ".." pops the previous component,
"." is dropped. -/
def resolveStep (acc : List String) (c : String) : List String :=
  if c = ".." then acc.dropLast
  else if c = "." then acc
  else acc ++ [c]

def resolvePath (p : List String) : List String :=
  p.foldl resolveStep []

/-- A filesystem: the existing files, each a resolved absolute path (component
list) with its byte contents. -/
def FileSys : Type := List (List String × List Nat)

/-- Contents of the file at resolved path `p`, if it exists. -/
def lookupFile (fs : FileSys) (p : List String) : Option (List Nat) :=
  (fs.find? (fun f => decide (f.1 = p))).map (fun f => f.2)

/-- Model of `HLSSession.get_segment_path` (hls_handler.py lines 163-165) and the
identical `HLSSessionFFmpeg.get_segment_path` (lines 246-248):
`segment_path = self.segment_dir / segment_filename;
return segment_path if segment_path.exists() else None`.
No sanitisation of `segment_filename` is performed. -/
def get_segment_path (fs : FileSys) (segmentDir : List String) (segmentFilename : String) :
    Option (List String) :=
  if (lookupFile fs (resolvePath (joinPath segmentDir segmentFilename))).isSome
  then some (resolvePath (joinPath segmentDir segmentFilename)) else none

/-- Model of `serve_hls_segment` (server.py lines 553-585) restricted to its data path:
resolve the name via `get_segment_path` and send the file's bytes, or a
not-found signal when `get_segment_path` returns `None`. -/
def fetch_segment (fs : FileSys) (segmentDir : List String) (segmentFilename : String) :
    Option (List Nat) :=
  match get_segment_path fs segmentDir segmentFilename with
  | some p => lookupFile fs p
  | none => none

/-- Value of the first "#EXT-X-TARGETDURATION:" line of a playlist, if any. -/
def targetOf (p : List PLine) : Option ℤ :=
  p.findSome? (fun l =>
    match l with
    | PLine.targetDuration t => some t
    | _ => none)

/-- Declared target duration of a playlist, defaulting to 0 when the header
line is absent. -/
def targetVal (p : List PLine) : ℤ :=
  (targetOf p).getD 0

/-- Number of "#EXTINF:" entry lines in a playlist. -/
def extinfCount (p : List PLine) : Nat :=
  p.countP (fun l =>
    match l with
    | PLine.extinf _ => true
    | _ => false)

/-- Number of "#EXT-X-ENDLIST" completion-marker lines in a playlist. -/
def endListCount (p : List PLine) : Nat :=
  p.countP (fun l => decide (l = PLine.endList))

/-- Successive `_update_playlist` calls for a list of (filename, duration)
pairs, in order. -/
def appendAll (p : List PLine) (entries : List (String × ℚ)) : List PLine :=
  entries.foldl (fun pl fd => update_playlist pl fd.1 fd.2) p

/-- Target-duration bookkeeping step performed by one `_update_playlist` call
appending a segment of the given duration. -/
def tdStep (t : ℤ) (fd : String × ℚ) : ℤ :=
  max t (pyInt fd.2 + 1)

lemma targetOf_append_endList (l : List PLine) :
    targetOf (l ++ [PLine.endList]) = targetOf l := by
  induction l with
  | nil => rfl
  | cons h tl ih =>
      cases h <;> simp [targetOf, List.findSome?_cons] at ih ⊢ <;> exact ih

lemma targetOf_dropLast_of_endList (l : List PLine)
    (h : l.getLast? = some PLine.endList) :
    targetOf l.dropLast = targetOf l := by
  have hne : l ≠ [] := by
    intro hnil
    rw [hnil] at h
    simp at h
  have hlast : l.getLast hne = PLine.endList := by
    have := List.getLast?_eq_getLast l hne
    rw [this] at h
    exact (Option.some_inj.mp h)
  conv_rhs => rw [← List.dropLast_append_getLast hne, hlast]
  rw [targetOf_append_endList]

lemma targetOf_map_bumpTarget (d : ℚ) (l : List PLine) :
    targetOf (l.map (bumpTarget d)) =
      (targetOf l).map (fun t => max t (pyInt d + 1)) := by
  induction l with
  | nil => rfl
  | cons h tl ih =>
      cases h with
      | targetDuration t =>
          simp only [List.map_cons, targetOf, List.findSome?_cons, bumpTarget]
          by_cases hlt : pyInt d + 1 > t
          · rw [if_pos hlt]
            simp [max_eq_right (le_of_lt hlt)]
          · rw [if_neg hlt]
            push_neg at hlt
            simp [max_eq_left hlt]
      | header => simpa [targetOf, List.findSome?_cons, bumpTarget] using ih
      | version n => simpa [targetOf, List.findSome?_cons, bumpTarget] using ih
      | playlistType => simpa [targetOf, List.findSome?_cons, bumpTarget] using ih
      | mediaSeq n => simpa [targetOf, List.findSome?_cons, bumpTarget] using ih
      | extinf q => simpa [targetOf, List.findSome?_cons, bumpTarget] using ih
      | segRef f => simpa [targetOf, List.findSome?_cons, bumpTarget] using ih
      | endList => simpa [targetOf, List.findSome?_cons, bumpTarget] using ih

lemma targetOf_append_entry (l : List PLine) (f : String) (d : ℚ) :
    targetOf (l ++ [PLine.extinf d, PLine.segRef f]) = targetOf l := by
  induction l with
  | nil => rfl
  | cons h tl ih =>
      cases h <;> simp [targetOf, List.findSome?_cons] at ih ⊢ <;> exact ih

/-- Effect of one `_update_playlist` call on the declared target duration:
the recorded value is raised to `int(duration) + 1` exactly when that
exceeds it, i.e. replaced by the maximum of the two. -/
lemma targetOf_update (p : List PLine) (f : String) (d : ℚ) :
    targetOf (update_playlist p f d) =
      (targetOf p).map (fun t => max t (pyInt d + 1)) := by
  unfold update_playlist
  by_cases hl : p.getLast? = some PLine.endList
  · rw [if_pos hl, targetOf_append_entry, targetOf_map_bumpTarget,
      targetOf_dropLast_of_endList p hl]
  · rw [if_neg hl, targetOf_append_entry, targetOf_map_bumpTarget]

lemma targetOf_appendAll (p : List PLine) (L : List (String × ℚ)) :
    targetOf (appendAll p L) = (targetOf p).map (fun t => L.foldl tdStep t) := by
  induction L generalizing p with
  | nil =>
      simp only [appendAll, List.foldl_nil]
      cases targetOf p <;> rfl
  | cons fd tl ih =>
      have h1 : appendAll p (fd :: tl) = appendAll (update_playlist p fd.1 fd.2) tl := rfl
      rw [h1, ih, targetOf_update, Option.map_map]
      rfl

lemma le_foldl_tdStep_seed (t : ℤ) (L : List (String × ℚ)) :
    t ≤ L.foldl tdStep t := by
  induction L generalizing t with
  | nil => simp
  | cons fd tl ih =>
      calc t ≤ tdStep t fd := le_max_left _ _
        _ ≤ tl.foldl tdStep (tdStep t fd) := ih _

lemma mem_le_foldl_tdStep (t : ℤ) (L : List (String × ℚ)) (fd : String × ℚ)
    (h : fd ∈ L) : pyInt fd.2 + 1 ≤ L.foldl tdStep t := by
  induction L generalizing t with
  | nil => cases h
  | cons hd tl ih =>
      rw [List.foldl_cons]
      rcases List.mem_cons.mp h with heq | hmem
      · subst heq
        calc pyInt fd.2 + 1 ≤ tdStep t fd := le_max_right _ _
          _ ≤ tl.foldl tdStep (tdStep t fd) := le_foldl_tdStep_seed _ _
      · exact ih _ hmem

lemma pyInt_of_nonneg (q : ℚ) (h : 0 ≤ q) : pyInt q = ⌊q⌋ := by
  unfold pyInt
  rw [if_neg (not_lt.mpr h)]

/-- C5 (amended): the playlist's declared target duration is initialized to
the configured segment duration truncated to an integer plus one second
(`int(segment_duration) + 1`, which equals rounding up plus one only for
whole-second configurations), and across every subsequent `_update_playlist`
append it never decreases and ends at least at every appended segment's
duration rounded up. -/
theorem target_duration_invariant (sd : ℚ) (L : List (String × ℚ))
    (hd : ∀ fd ∈ L, (0 : ℚ) ≤ fd.2) :
    targetOf (initialize_playlist sd) = some (pyInt sd + 1) ∧
    (∀ k : ℕ, targetVal (appendAll (initialize_playlist sd) (L.take k)) ≤
        targetVal (appendAll (initialize_playlist sd) (L.take (k + 1)))) ∧
    (∀ fd ∈ L, (⌈fd.2⌉ : ℤ) ≤ targetVal (appendAll (initialize_playlist sd) L)) := by
  have h0 : targetOf (initialize_playlist sd) = some (pyInt sd + 1) := rfl
  have hval : ∀ M : List (String × ℚ),
      targetVal (appendAll (initialize_playlist sd) M) =
        M.foldl tdStep (pyInt sd + 1) := by
    intro M
    unfold targetVal
    rw [targetOf_appendAll, h0]
    rfl
  refine ⟨h0, ?_, ?_⟩
  · intro k
    rw [hval, hval, List.take_succ]
    cases hk : L[k]? with
    | none => simp
    | some fd =>
        simp only [Option.toList_some, List.foldl_append, List.foldl_cons, List.foldl_nil]
        exact le_max_left _ _
  · intro fd hmem
    rw [hval]
    have h1 : (⌈fd.2⌉ : ℤ) ≤ pyInt fd.2 + 1 := by
      rw [pyInt_of_nonneg fd.2 (hd fd hmem)]
      exact Int.ceil_le_floor_add_one fd.2
    exact le_trans h1 (mem_le_foldl_tdStep _ _ _ hmem)

/-- Witness for `target_duration_invariant` at a concrete session: configured
duration 5, one appended segment of duration 5.5. -/
theorem target_duration_invariant_witness :
    (∀ fd ∈ [("segment001.mp3", (11 : ℚ) / 2)], (0 : ℚ) ≤ fd.2) ∧
    targetOf (initialize_playlist 5) = some (pyInt 5 + 1) ∧
    (∀ k : ℕ, targetVal (appendAll (initialize_playlist 5)
        ([("segment001.mp3", (11 : ℚ) / 2)].take k)) ≤
      targetVal (appendAll (initialize_playlist 5)
        ([("segment001.mp3", (11 : ℚ) / 2)].take (k + 1)))) ∧
    (∀ fd ∈ [("segment001.mp3", (11 : ℚ) / 2)], (⌈fd.2⌉ : ℤ) ≤
        targetVal (appendAll (initialize_playlist 5) [("segment001.mp3", (11 : ℚ) / 2)])) := by
  have hd : ∀ fd ∈ [("segment001.mp3", (11 : ℚ) / 2)], (0 : ℚ) ≤ fd.2 := by
    intro fd hm
    rcases List.mem_singleton.mp hm with rfl
    norm_num
  exact ⟨hd, target_duration_invariant 5 [("segment001.mp3", (11 : ℚ) / 2)] hd⟩

/-- Counterexample to C5 as stated: for the (configurable, reachable)
fractional segment duration 5.5 the playlist header records
`int(5.5) + 1 = 6`, while the claimed "rounded up plus one second of slack"
is `ceil(5.5) + 1 = 7`. -/
theorem target_duration_init_not_rounded_up :
    targetOf (initialize_playlist ((11 : ℚ) / 2)) = some 6 ∧
    (⌈(11 : ℚ) / 2⌉ + 1 : ℤ) = 7 ∧ (6 : ℤ) ≠ 7 := by
  refine ⟨by with_unfolding_all rfl, ?_, by decide⟩
  have h : ⌈(11 : ℚ) / 2⌉ = (6 : ℤ) := by
    rw [Int.ceil_eq_iff]
    norm_num
  rw [h]
  norm_num

lemma endListCount_map_bump (d : ℚ) (l : List PLine) :
    endListCount (l.map (bumpTarget d)) = endListCount l := by
  unfold endListCount
  rw [List.countP_map]
  apply List.countP_congr
  intro x _
  cases x with
  | targetDuration t =>
      by_cases hlt : pyInt d + 1 > t <;> simp [Function.comp, bumpTarget, hlt]
  | header => exact Iff.rfl
  | version n => exact Iff.rfl
  | playlistType => exact Iff.rfl
  | mediaSeq n => exact Iff.rfl
  | extinf q => exact Iff.rfl
  | segRef f => exact Iff.rfl
  | endList => exact Iff.rfl

lemma extinfCount_map_bump (d : ℚ) (l : List PLine) :
    extinfCount (l.map (bumpTarget d)) = extinfCount l := by
  unfold extinfCount
  rw [List.countP_map]
  apply List.countP_congr
  intro x _
  cases x with
  | targetDuration t =>
      by_cases hlt : pyInt d + 1 > t <;> simp [Function.comp, bumpTarget, hlt]
  | header => exact Iff.rfl
  | version n => exact Iff.rfl
  | playlistType => exact Iff.rfl
  | mediaSeq n => exact Iff.rfl
  | extinf q => exact Iff.rfl
  | segRef f => exact Iff.rfl
  | endList => exact Iff.rfl

lemma eq_dropLast_concat_of_getLast?_endList (p : List PLine)
    (h : p.getLast? = some PLine.endList) :
    p = p.dropLast ++ [PLine.endList] := by
  have hne : p ≠ [] := by
    intro hnil
    rw [hnil] at h
    simp at h
  have hlast : p.getLast hne = PLine.endList := by
    have := List.getLast?_eq_getLast p hne
    rw [this] at h
    exact Option.some_inj.mp h
  conv_lhs => rw [← List.dropLast_append_getLast hne, hlast]

/-- C4 (amended): when the current manifest ends with the completion marker,
`_update_playlist` strips that marker before mutating and does not re-add
it: the rewritten manifest ends with the new segment reference and contains
one fewer completion marker than before. -/
theorem update_playlist_drops_end_marker (p : List PLine) (f : String) (d : ℚ)
    (h : p.getLast? = some PLine.endList) :
    (update_playlist p f d).getLast? = some (PLine.segRef f) ∧
    PLine.segRef f ≠ PLine.endList ∧
    endListCount (update_playlist p f d) + 1 = endListCount p := by
  unfold update_playlist
  rw [if_pos h]
  refine ⟨?_, by simp, ?_⟩
  · rw [show (p.dropLast.map (bumpTarget d)) ++ [PLine.extinf d, PLine.segRef f] =
        ((p.dropLast.map (bumpTarget d)) ++ [PLine.extinf d]) ++ [PLine.segRef f] by simp,
      List.getLast?_concat]
  · rw [show endListCount ((p.dropLast.map (bumpTarget d)) ++
        [PLine.extinf d, PLine.segRef f]) = endListCount (p.dropLast.map (bumpTarget d)) by
        unfold endListCount
        rw [List.countP_append]
        rfl,
      endListCount_map_bump]
    conv_rhs => rw [eq_dropLast_concat_of_getLast?_endList p h]
    unfold endListCount
    rw [List.countP_append]
    rfl

/-- Witness for `update_playlist_drops_end_marker`: a concrete finalized
playlist with one segment entry and a trailing completion marker. -/
theorem update_playlist_drops_end_marker_witness :
    ([PLine.header, PLine.version 3, PLine.targetDuration 6, PLine.playlistType,
      PLine.mediaSeq 0, PLine.extinf 5, PLine.segRef "segment001.mp3",
      PLine.endList].getLast? = some PLine.endList) ∧
    ((update_playlist [PLine.header, PLine.version 3, PLine.targetDuration 6,
        PLine.playlistType, PLine.mediaSeq 0, PLine.extinf 5,
        PLine.segRef "segment001.mp3", PLine.endList]
        "segment002.mp3" 3).getLast? = some (PLine.segRef "segment002.mp3") ∧
      PLine.segRef "segment002.mp3" ≠ PLine.endList ∧
      endListCount (update_playlist [PLine.header, PLine.version 3,
        PLine.targetDuration 6, PLine.playlistType, PLine.mediaSeq 0, PLine.extinf 5,
        PLine.segRef "segment001.mp3", PLine.endList] "segment002.mp3" 3) + 1 =
        endListCount [PLine.header, PLine.version 3, PLine.targetDuration 6,
          PLine.playlistType, PLine.mediaSeq 0, PLine.extinf 5,
          PLine.segRef "segment001.mp3", PLine.endList]) := by
  refine ⟨by rfl, update_playlist_drops_end_marker _ "segment002.mp3" 3 (by rfl)⟩

/-- Counterexample to C4 as stated: on a concrete playlist ending with the
completion marker, `_update_playlist` produces a manifest whose final line is
the new segment reference, not the completion marker, and which contains no
completion marker at all — the stripped marker is never re-added. -/
theorem update_playlist_does_not_restore_end_marker :
    (update_playlist [PLine.header, PLine.version 3, PLine.targetDuration 6,
        PLine.playlistType, PLine.mediaSeq 0, PLine.extinf 5,
        PLine.segRef "segment001.mp3", PLine.endList]
        "segment002.mp3" 3).getLast? = some (PLine.segRef "segment002.mp3") ∧
    PLine.segRef "segment002.mp3" ≠ PLine.endList ∧
    endListCount (update_playlist [PLine.header, PLine.version 3,
        PLine.targetDuration 6, PLine.playlistType, PLine.mediaSeq 0, PLine.extinf 5,
        PLine.segRef "segment001.mp3", PLine.endList] "segment002.mp3" 3) = 0 := by
  refine ⟨by with_unfolding_all rfl, by simp, by with_unfolding_all rfl⟩

lemma extinfCount_dropLast_of_endList (p : List PLine)
    (h : p.getLast? = some PLine.endList) :
    extinfCount p.dropLast = extinfCount p := by
  conv_rhs => rw [eq_dropLast_concat_of_getLast?_endList p h]
  unfold extinfCount
  rw [List.countP_append]
  rfl

lemma extinfCount_append_endList (p : List PLine) :
    extinfCount (p ++ [PLine.endList]) = extinfCount p := by
  unfold extinfCount
  rw [List.countP_append]
  rfl

/-- Every `_update_playlist` call appends exactly one "#EXTINF:" entry. -/
lemma extinfCount_update (p : List PLine) (f : String) (d : ℚ) :
    extinfCount (update_playlist p f d) = extinfCount p + 1 := by
  unfold update_playlist
  by_cases hl : p.getLast? = some PLine.endList
  · rw [if_pos hl]
    unfold extinfCount
    rw [List.countP_append]
    have := extinfCount_map_bump d p.dropLast
    unfold extinfCount at this
    rw [this]
    have h2 := extinfCount_dropLast_of_endList p hl
    unfold extinfCount at h2
    rw [h2]
    rfl
  · rw [if_neg hl]
    unfold extinfCount
    rw [List.countP_append]
    have := extinfCount_map_bump d p
    unfold extinfCount at this
    rw [this]
    rfl

lemma finalize_segment_empty (s : HLSSession) (p : ProbeOutcome)
    (hb : s.currentSegmentBuffer = []) : finalize_segment s p = Except.ok s := by
  unfold finalize_segment
  rw [if_pos (by simp [hb])]

lemma finalize_segment_ok_of_nonempty (s : HLSSession) (p : ProbeOutcome)
    (s' : HLSSession) (hb : s.currentSegmentBuffer ≠ [])
    (h : finalize_segment s p = Except.ok s') :
    s'.segmentCounter = s.segmentCounter + 1 ∧
    s'.currentSegmentBuffer = [] ∧
    s'.completed = s.completed ∧
    s'.error = s.error ∧
    extinfCount s'.playlist = extinfCount s.playlist + 1 := by
  unfold finalize_segment at h
  rw [if_neg (by simpa using hb)] at h
  cases hgd : get_segment_duration (afterWrite s) s.currentSegmentBuffer.sum p with
  | error e =>
      rw [hgd] at h
      exact absurd h (by simp)
  | ok d =>
      rw [hgd] at h
      injection h with h'
      subst h'
      exact ⟨rfl, rfl, rfl, rfl, extinfCount_update _ _ _⟩

lemma finalize_segment_counter_le (s : HLSSession) (p : ProbeOutcome)
    (s' : HLSSession) (h : finalize_segment s p = Except.ok s') :
    s.segmentCounter ≤ s'.segmentCounter ∧
    s'.completed = s.completed ∧ s'.error = s.error := by
  by_cases hb : s.currentSegmentBuffer = []
  · rw [finalize_segment_empty s p hb] at h
    cases h with
    | refl => exact ⟨le_refl _, rfl, rfl⟩
  · obtain ⟨h1, _, h3, h4, _⟩ := finalize_segment_ok_of_nonempty s p s' hb h
    exact ⟨by omega, h3, h4⟩

lemma add_audio_chunk_inactive (s : HLSSession) (c : Nat) (p : ProbeOutcome)
    (h : (s.completed || pyTruthy s.error) = true) :
    add_audio_chunk s c p = Except.ok s := by
  unfold add_audio_chunk
  rw [if_pos h]

lemma add_audio_chunk_props (s : HLSSession) (c : Nat) (p : ProbeOutcome)
    (s' : HLSSession) (h : add_audio_chunk s c p = Except.ok s') :
    s.segmentCounter ≤ s'.segmentCounter ∧
    s'.completed = s.completed ∧ s'.error = s.error := by
  unfold add_audio_chunk at h
  by_cases hg : (s.completed || pyTruthy s.error) = true
  · rw [if_pos hg] at h
    cases h with
    | refl => exact ⟨le_refl _, rfl, rfl⟩
  · rw [if_neg hg] at h
    by_cases hf : shouldFinalize s c = true
    · rw [if_pos hf] at h
      have := finalize_segment_counter_le (afterAppend s c) p s' h
      exact ⟨this.1, this.2.1, this.2.2⟩
    · rw [if_neg hf] at h
      cases h with
      | refl => exact ⟨le_refl _, rfl, rfl⟩

lemma add_audio_chunk_no_trigger (s : HLSSession) (c : Nat) (p : ProbeOutcome)
    (s' : HLSSession) (hg : (s.completed || pyTruthy s.error) = false)
    (h : add_audio_chunk s c p = Except.ok s')
    (hcnt : s'.segmentCounter = s.segmentCounter) :
    s' = afterAppend s c := by
  unfold add_audio_chunk at h
  rw [if_neg (by simp [hg])] at h
  by_cases hf : shouldFinalize s c = true
  · rw [if_pos hf] at h
    have hb : (afterAppend s c).currentSegmentBuffer ≠ [] := by
      simp [afterAppend]
    have := (finalize_segment_ok_of_nonempty (afterAppend s c) p s' hb h).1
    rw [hcnt] at this
    simp [afterAppend] at this
  · rw [if_neg hf] at h
    cases h with
    | refl => rfl

lemma runChunks_props (chunks : List Nat) (s : HLSSession) (p : ProbeOutcome)
    (s' : HLSSession) (h : runChunks s chunks p = Except.ok s') :
    s.segmentCounter ≤ s'.segmentCounter ∧
    s'.completed = s.completed ∧ s'.error = s.error := by
  induction chunks generalizing s with
  | nil =>
      unfold runChunks at h
      rw [List.foldlM_nil] at h
      cases h with
      | refl => exact ⟨le_refl _, rfl, rfl⟩
  | cons c tl ih =>
      unfold runChunks at h ih
      rw [List.foldlM_cons] at h
      cases hadd : add_audio_chunk s c p with
      | error e =>
          rw [hadd] at h
          exact Except.noConfusion h
      | ok s1 =>
          rw [hadd] at h
          have hbind : runChunks s1 tl p = Except.ok s' := by
            unfold runChunks
            simpa [Except.bind] using h
          unfold runChunks at hbind
          have h1 := add_audio_chunk_props s c p s1 hadd
          have h2 := ih s1 hbind
          exact ⟨le_trans h1.1 h2.1, by rw [h2.2.1, h1.2.1], by rw [h2.2.2, h1.2.2]⟩

lemma runChunks_no_trigger (chunks : List Nat) (s : HLSSession) (p : ProbeOutcome)
    (s' : HLSSession) (hg : (s.completed || pyTruthy s.error) = false)
    (h : runChunks s chunks p = Except.ok s')
    (hcnt : s'.segmentCounter = s.segmentCounter) :
    s'.currentSegmentBuffer = s.currentSegmentBuffer ++ chunks ∧
    s'.completed = s.completed ∧ s'.error = s.error := by
  induction chunks generalizing s with
  | nil =>
      unfold runChunks at h
      rw [List.foldlM_nil] at h
      cases h with
      | refl => exact ⟨by simp, rfl, rfl⟩
  | cons c tl ih =>
      unfold runChunks at h
      rw [List.foldlM_cons] at h
      cases hadd : add_audio_chunk s c p with
      | error e =>
          rw [hadd] at h
          exact Except.noConfusion h
      | ok s1 =>
          rw [hadd] at h
          have hbind : runChunks s1 tl p = Except.ok s' := by
            unfold runChunks
            simpa [Except.bind] using h
          have h1 := add_audio_chunk_props s c p s1 hadd
          have h2 := runChunks_props tl s1 p s' hbind
          have hcnt1 : s1.segmentCounter = s.segmentCounter := by omega
      
          have h3 : s1 = afterAppend s c :=
            add_audio_chunk_no_trigger s c p s1 hg hadd hcnt1
          have hg1 : (s1.completed || pyTruthy s1.error) = false := by
            rw [h3]
            exact hg
          have hcnt2 : s'.segmentCounter = s1.segmentCounter := by omega
          obtain ⟨hb, hc, he⟩ := ih s1 hg1 hbind hcnt2
          refine ⟨?_, ?_, ?_⟩
          · rw [hb, h3]
            simp [afterAppend]
          · rw [hc, h3]
            rfl
          · rw [he, h3]
            rfl

lemma finalize_ok_completed (s : HLSSession) (p : ProbeOutcome) (s1 : HLSSession)
    (h : finalize s p = Except.ok s1) : s1.completed = true := by
  unfold finalize at h
  by_cases hc : s.completed = true
  · rw [if_pos hc] at h
    cases h with
    | refl => exact hc
  · rw [if_neg hc] at h
    cases hfs : (if s.currentSegmentBuffer.length > 0 then finalize_segment s p
        else Except.ok s) with
    | error e =>
        rw [hfs] at h
        exact Except.noConfusion h
    | ok s2 =>
        rw [hfs] at h
        injection h with h'
        subst h'
        rfl

/-- C7 (confirmed): `HLSSession.finalize` is idempotent.  Any successful call
leaves a state on which a second `finalize` call (whatever its probe
outcome) is a no-op returning the identical state, so the playlist content
after two calls equals the content after one: no duplicate completion
marker and no duplicate final segment. -/
theorem finalize_idempotent (s s1 : HLSSession) (p p2 : ProbeOutcome)
    (h : finalize s p = Except.ok s1) : finalize s1 p2 = Except.ok s1 := by
  have hc := finalize_ok_completed s p s1 h
  unfold finalize
  rw [if_pos hc]

/-- Concrete finalized session used by the idempotence witness: the result of
finalizing a fresh session with configured duration 5. -/
def w7State : HLSSession :=
  { initSession "w7" 5 with
    playlist := initialize_playlist 5 ++ [PLine.endList]
    completed := true }

/-- Witness for `finalize_idempotent`: a fresh session is finalized once, and
the theorem gives that the second call returns the same state unchanged. -/
theorem finalize_idempotent_witness :
    finalize (initSession "w7" 5) (ProbeOutcome.ok 1) = Except.ok w7State ∧
    finalize w7State ProbeOutcome.calledProcessError = Except.ok w7State := by
  have h : finalize (initSession "w7" 5) (ProbeOutcome.ok 1) = Except.ok w7State := by
    with_unfolding_all rfl
  exact ⟨h, finalize_idempotent (initSession "w7" 5) w7State (ProbeOutcome.ok 1)
    ProbeOutcome.calledProcessError h⟩

/-- C8 (confirmed): remainder-draining law.  For a fresh raw-segment session
fed a non-empty list of chunks none of which triggered a segment (the
counter is still 0), a successful `finalize` drains the buffered remainder
as a final segment: the finalized session has at least one segment and the
playlist gains exactly one "#EXTINF:" entry. -/
theorem finalize_drains_remainder (sd : ℚ) (sid : String) (chunks : List Nat)
    (p p2 : ProbeOutcome) (s s1 : HLSSession)
    (hne : chunks ≠ [])
    (hrun : runChunks (initSession sid sd) chunks p = Except.ok s)
    (hcnt : s.segmentCounter = 0)
    (hfin : finalize s p2 = Except.ok s1) :
    1 ≤ s1.segmentCounter ∧
    extinfCount s1.playlist = extinfCount s.playlist + 1 := by
  have hg : ((initSession sid sd).completed || pyTruthy (initSession sid sd).error)
      = false := rfl
  obtain ⟨hbuf, hcomp, herr⟩ := runChunks_no_trigger chunks (initSession sid sd) p s hg
    hrun (by rw [hcnt]; rfl)
  have hbne : s.currentSegmentBuffer ≠ [] := by
    have hinit : (initSession sid sd).currentSegmentBuffer = [] := rfl
    rw [hbuf, hinit, List.nil_append]
    exact hne
  have hcompf : ¬ s.completed = true := by
    rw [hcomp]
    simp [initSession]
  unfold finalize at hfin
  rw [if_neg hcompf, if_pos (by simp [List.length_pos]; exact hbne)] at hfin
  cases hfs : finalize_segment s p2 with
  | error e =>
      rw [hfs] at hfin
      exact Except.noConfusion hfin
  | ok s2 =>
      rw [hfs] at hfin
      injection hfin with h'
      subst h'
      obtain ⟨hc2, _, _, _, hx⟩ := finalize_segment_ok_of_nonempty s p2 s2 hbne hfs
      constructor
      · show 1 ≤ s2.segmentCounter
        omega
      · show extinfCount (s2.playlist ++ [PLine.endList]) = extinfCount s.playlist + 1
        rw [extinfCount_append_endList, hx]

/-- Intermediate state of the remainder-draining witness: a fresh session with
configured duration 5 after one 1000-byte chunk (estimate 1/16 s, no
trigger). -/
def w8Mid : HLSSession :=
  { initSession "w8" 5 with
    currentSegmentBuffer := [1000]
    currentSegmentDuration := 1 / 16 }

/-- Final state of the remainder-draining witness: the drained single-segment
session after `finalize`. -/
def w8Fin : HLSSession :=
  { initSession "w8" 5 with
    segmentCounter := 1
    segments := [(1, 1000)]
    playlist := update_playlist (initialize_playlist 5) (segmentName 1) (1 / 16)
      ++ [PLine.endList]
    completed := true }

/-- Witness for `finalize_drains_remainder`: one 1000-byte chunk is fed (no
trigger fires), `finalize` is called with a successful probe reporting
1/16 s, and the session ends with one segment and one playlist entry. -/
theorem finalize_drains_remainder_witness :
    ([1000] : List Nat) ≠ [] ∧
    runChunks (initSession "w8" 5) [1000] (ProbeOutcome.ok (1 / 16)) = Except.ok w8Mid ∧
    w8Mid.segmentCounter = 0 ∧
    finalize w8Mid (ProbeOutcome.ok (1 / 16)) = Except.ok w8Fin ∧
    1 ≤ w8Fin.segmentCounter ∧
    extinfCount w8Fin.playlist = extinfCount w8Mid.playlist + 1 := by
  have h1 : ([1000] : List Nat) ≠ [] := by simp
  have h2 : runChunks (initSession "w8" 5) [1000] (ProbeOutcome.ok (1 / 16)) =
      Except.ok w8Mid := by with_unfolding_all rfl
  have h3 : w8Mid.segmentCounter = 0 := rfl
  have h4 : finalize w8Mid (ProbeOutcome.ok (1 / 16)) = Except.ok w8Fin := by
    with_unfolding_all rfl
  exact ⟨h1, h2, h3, h4,
    finalize_drains_remainder 5 "w8" [1000] (ProbeOutcome.ok (1 / 16))
      (ProbeOutcome.ok (1 / 16)) w8Mid w8Fin h1 h2 h3 h4⟩

lemma get_segment_duration_fallback (s : HLSSession) (fileSize : Nat)
    (p : ProbeOutcome) (hzero : s.currentSegmentDuration = 0)
    (hfail : p = ProbeOutcome.calledProcessError ∨ p = ProbeOutcome.valueError ∨
      p = ProbeOutcome.timeoutExpired) :
    get_segment_duration s fileSize p =
      Except.ok ((fileSize : ℚ) / (192 * 128 / 8)) := by
  rcases hfail with rfl | rfl | rfl <;> simp [get_segment_duration, hzero]

/-- C2 (amended): when duration probing fails with one of the caught causes
(non-zero exit, malformed output, or timeout — but not a missing ffprobe
binary, whose `FileNotFoundError` propagates), the failure does not surface:
the segment's duration becomes the estimate `file_size / (192 * 128 / 8)`.
That bytes-per-second constant (3072) differs from the buffer's
`128 * 1000 / 8` (16000); because it is the smaller of the two, the fallback
is never lower than the buffer's pre-write estimate for the segment. -/
theorem probe_fallback_duration (s : HLSSession) (p : ProbeOutcome)
    (hfail : p = ProbeOutcome.calledProcessError ∨ p = ProbeOutcome.valueError ∨
      p = ProbeOutcome.timeoutExpired)
    (hb : s.currentSegmentBuffer ≠ [])
    (hest : s.currentSegmentDuration =
      (s.currentSegmentBuffer.sum : ℚ) / (128 * 1000 / 8)) :
    finalize_segment s p = Except.ok { afterWrite s with
        playlist := update_playlist (afterWrite s).playlist
          (segmentName (s.segmentCounter + 1))
          ((s.currentSegmentBuffer.sum : ℚ) / (192 * 128 / 8)) } ∧
    s.currentSegmentDuration ≤ (s.currentSegmentBuffer.sum : ℚ) / (192 * 128 / 8) := by
  constructor
  · unfold finalize_segment
    rw [if_neg (by simpa using hb),
      get_segment_duration_fallback (afterWrite s) s.currentSegmentBuffer.sum p rfl hfail]
  · rw [hest]
    apply div_le_div_of_nonneg_left
    · exact Nat.cast_nonneg _
    · norm_num
    · norm_num

/-- Session for the probe-fallback witness: one buffered 3072-byte chunk,
running estimate `3072 / 16000` seconds. -/
def w2State : HLSSession :=
  { initSession "w2" 5 with
    currentSegmentBuffer := [3072]
    currentSegmentDuration := 3072 / (128 * 1000 / 8) }

/-- Witness for `probe_fallback_duration` at `w2State` with a timeout probe
failure. -/
theorem probe_fallback_duration_witness :
    (ProbeOutcome.timeoutExpired = ProbeOutcome.calledProcessError ∨
      ProbeOutcome.timeoutExpired = ProbeOutcome.valueError ∨
      ProbeOutcome.timeoutExpired = ProbeOutcome.timeoutExpired) ∧
    w2State.currentSegmentBuffer ≠ [] ∧
    w2State.currentSegmentDuration =
      (w2State.currentSegmentBuffer.sum : ℚ) / (128 * 1000 / 8) ∧
    (finalize_segment w2State ProbeOutcome.timeoutExpired = Except.ok { afterWrite w2State with
        playlist := update_playlist (afterWrite w2State).playlist
          (segmentName (w2State.segmentCounter + 1))
          ((w2State.currentSegmentBuffer.sum : ℚ) / (192 * 128 / 8)) } ∧
      w2State.currentSegmentDuration ≤
        (w2State.currentSegmentBuffer.sum : ℚ) / (192 * 128 / 8)) := by
  have hfail : ProbeOutcome.timeoutExpired = ProbeOutcome.calledProcessError ∨
      ProbeOutcome.timeoutExpired = ProbeOutcome.valueError ∨
      ProbeOutcome.timeoutExpired = ProbeOutcome.timeoutExpired := by
    right; right; rfl
  have hb : w2State.currentSegmentBuffer ≠ [] := by simp [w2State]
  have hest : w2State.currentSegmentDuration =
      (w2State.currentSegmentBuffer.sum : ℚ) / (128 * 1000 / 8) := by
    with_unfolding_all rfl
  exact ⟨hfail, hb, hest,
    probe_fallback_duration w2State ProbeOutcome.timeoutExpired hfail hb hest⟩

/-- Counterexample to C2 as stated: at the state `_get_segment_duration` is
actually called in (`current_segment_duration` already reset to 0) with a
3072-byte segment file and a probe failure, the code returns duration 1,
whereas `file_size` divided by the buffer's bytes-per-second constant
`128 * 1000 / 8` would be `3072 / 16000 ≠ 1`; and the tool-missing cause
(`FileNotFoundError`) is not caught at all and surfaces to the caller. -/
theorem probe_fallback_uses_different_constant :
    get_segment_duration (initSession "x" 5) 3072 ProbeOutcome.calledProcessError =
      Except.ok 1 ∧
    (3072 : ℚ) / (128 * 1000 / 8) ≠ 1 ∧
    get_segment_duration (initSession "x" 5) 3072 ProbeOutcome.fileNotFound =
      Except.error "FileNotFoundError: ffprobe" := by
  refine ⟨by with_unfolding_all rfl, by norm_num, rfl⟩

/-- C6 (amended): only the raw-segment variant's `add_audio_chunk` is a silent
no-op on a completed or (truthily) errored session.  The real-time-encoder
variant performs no such check: with the encoder process present and its
stdin already closed (the state every finalized encoder session is in), its
`add_audio_chunk` attempts the write and records the resulting error on the
session. -/
theorem add_chunk_after_completion (s : HLSSession) (t : FFSession) (c : Nat)
    (p : ProbeOutcome)
    (hs : s.completed = true ∨ pyTruthy s.error = true)
    (ht : t.procExists = true) (ht2 : t.stdinOpen = false) :
    add_audio_chunk s c p = Except.ok s ∧
    ff_add_audio_chunk t c = { t with error := some ffClosedStdinMsg } := by
  constructor
  · apply add_audio_chunk_inactive
    rcases hs with h | h <;> simp [h]
  · unfold ff_add_audio_chunk
    rw [ht, ht2]
    simp

/-- Completed/errored raw session used by the C6 witness. -/
def w6Raw : HLSSession :=
  { initSession "w6" 5 with completed := true }

/-- Finalized encoder session used by the C6 witness: process present, stdin
closed. -/
def w6FF : FFSession :=
  { sessionId := "w6f", completed := true, error := none,
    procExists := true, stdinOpen := false, written := [] }

/-- Witness for `add_chunk_after_completion` at the concrete completed
sessions. -/
theorem add_chunk_after_completion_witness :
    (w6Raw.completed = true ∨ pyTruthy w6Raw.error = true) ∧
    w6FF.procExists = true ∧ w6FF.stdinOpen = false ∧
    (add_audio_chunk w6Raw 100 ProbeOutcome.timeoutExpired = Except.ok w6Raw ∧
      ff_add_audio_chunk w6FF 100 = { w6FF with error := some ffClosedStdinMsg }) := by
  have hs : w6Raw.completed = true ∨ pyTruthy w6Raw.error = true := Or.inl rfl
  exact ⟨hs, rfl, rfl,
    add_chunk_after_completion w6Raw w6FF 100 ProbeOutcome.timeoutExpired hs rfl rfl⟩

/-- Counterexample to C6 as stated: the real-time-encoder variant is not a
silent no-op on a completed session.  On the finalized encoder session
`w6FF` (completed, stdin closed), `add_audio_chunk` changes the session
state, recording a write error. -/
theorem ff_add_chunk_not_noop :
    w6FF.completed = true ∧
    ff_add_audio_chunk w6FF 100 ≠ w6FF ∧
    (ff_add_audio_chunk w6FF 100).error = some ffClosedStdinMsg := by
  refine ⟨rfl, ?_, rfl⟩
  intro h
  have : (ff_add_audio_chunk w6FF 100).error = w6FF.error := by rw [h]
  rw [show (ff_add_audio_chunk w6FF 100).error = some ffClosedStdinMsg from rfl] at this
  exact Option.noConfusion this

/-- Mid-stream session with 2 segments for the set_error scenario: a fresh
session with configured duration 1 after two 20000-byte chunks, each of
which triggered a segment (estimate 5/4 s ≥ 1 s). -/
def sessC : HLSSession :=
  match runChunks (initSession "c" 1) [20000, 20000] (ProbeOutcome.ok (5 / 4)) with
  | Except.ok s => s
  | Except.error _ => initSession "c" 1

/-- C1 (code bug): `set_error` on an active raw-segment session deadlocks
instead of finalizing.  `set_error` acquires the session's non-reentrant
`threading.Lock` and invokes `finalize()` while still holding it;
`finalize`'s first statement re-acquires that same lock, so the call blocks
forever.  At the concrete scenario state (2 segments exist, session active),
`set_error("boom")` reaches the deadlock with the error recorded but with
`completed` still false and no completion marker ever appended: the playlist
keeps its 2 entries and 0 end markers, contradicting the claimed
record-error-then-close behaviour. -/
theorem set_error_deadlocks :
    sessC.segmentCounter = 2 ∧
    sessC.completed = false ∧
    set_error sessC "boom" (ProbeOutcome.ok (5 / 4)) =
      LockResult.deadlock { sessC with error := some "boom" } ∧
    ({ sessC with error := some "boom" } : HLSSession).completed = false ∧
    extinfCount sessC.playlist = 2 ∧
    endListCount sessC.playlist = 0 := by
  refine ⟨by with_unfolding_all rfl, by with_unfolding_all rfl,
    by with_unfolding_all rfl, by with_unfolding_all rfl,
    by with_unfolding_all rfl, by with_unfolding_all rfl⟩

/-- Example filesystem for the traversal scenario: the session's segment
directory is /tmp/sessA holding segment001.mp3, and a file secret.mp3
exists one level up, outside the session's directory. -/
def fsC3 : FileSys :=
  [(["tmp", "secret.mp3"], [7, 7, 7]),
   (["tmp", "sessA", "segment001.mp3"], [1, 2, 3])]

/-- C3 (code bug): `get_segment_path` performs no traversal check.  For the
request name "../secret.mp3" it returns the path /tmp/secret.mp3, which is
not inside the session's directory /tmp/sessA, and `serve_hls_segment`
then serves that outside file's bytes instead of a not-found signal. -/
theorem get_segment_path_traversal :
    get_segment_path fsC3 ["tmp", "sessA"] "../secret.mp3" =
      some ["tmp", "secret.mp3"] ∧
    (["tmp", "sessA"].isPrefixOf ["tmp", "secret.mp3"]) = false ∧
    fetch_segment fsC3 ["tmp", "sessA"] "../secret.mp3" = some [7, 7, 7] := by
  refine ⟨by decide, by decide, by decide⟩

/-- C9 (confirmed): a sweep run at `now = created_at + timeout + 1` (age
strictly greater than the timeout) removes a registered session from the
registry and destroys it, and a subsequent `get_hls_session` with that id
returns none. -/
theorem sweep_evicts_expired (reg : List RegSession) (sid : String) (e : RegSession)
    (timeout : ℚ) (h : get_hls_session reg sid = some e) :
    sid ∈ (cleanup_old_sessions reg (e.createdAt + timeout + 1) timeout).2 ∧
    get_hls_session (cleanup_old_sessions reg (e.createdAt + timeout + 1) timeout).1
      sid = none := by
  unfold get_hls_session at h
  have hmem : e ∈ reg := List.mem_of_find?_eq_some h
  have hp := List.find?_some h
  have hsid : e.sid = sid := by simpa using hp
  have hage : decide (timeout < e.createdAt + timeout + 1 - e.createdAt) = true := by
    apply decide_eq_true
    linarith
  have hrem : sid ∈ (reg.filter
      (fun x => decide (timeout < e.createdAt + timeout + 1 - x.createdAt))).map
      (fun x => x.sid) := by
    rw [← hsid]
    exact List.mem_map_of_mem _ (List.mem_filter.mpr ⟨hmem, hage⟩)
  constructor
  · exact hrem
  · unfold get_hls_session
    apply List.find?_eq_none.mpr
    intro x hx
    simp only [cleanup_old_sessions] at hx
    obtain ⟨hx1, hx2⟩ := List.mem_filter.mp hx
    intro hdec
    have hxsid : x.sid = sid := of_decide_eq_true hdec
    rw [hxsid] at hx2
    have helem : ((reg.filter
        (fun x => decide (timeout < e.createdAt + timeout + 1 - x.createdAt))).map
        (fun x => x.sid)).contains sid = true := by
      exact List.elem_iff.mpr hrem
    rw [helem] at hx2
    exact Bool.noConfusion hx2

/-- Registry used by the sweep witness: one session created at time 0. -/
def w9Reg : List RegSession := [{ sid := "a", createdAt := 0 }]

/-- Witness for `sweep_evicts_expired`: the single registered session, swept
at `now = 0 + 300 + 1` with timeout 300, is evicted and unfindable. -/
theorem sweep_evicts_expired_witness :
    get_hls_session w9Reg "a" = some { sid := "a", createdAt := 0 } ∧
    ("a" ∈ (cleanup_old_sessions w9Reg
        (({ sid := "a", createdAt := 0 } : RegSession).createdAt + 300 + 1) 300).2 ∧
      get_hls_session (cleanup_old_sessions w9Reg
        (({ sid := "a", createdAt := 0 } : RegSession).createdAt + 300 + 1) 300).1
        "a" = none) := by
  have h : get_hls_session w9Reg "a" = some { sid := "a", createdAt := 0 } := by
    with_unfolding_all rfl
  exact ⟨h, sweep_evicts_expired w9Reg "a" { sid := "a", createdAt := 0 } 300 h⟩

lemma foldl_resolveStep_clean (l : List String) (acc : List String)
    (h : ∀ c ∈ l, c ≠ ".." ∧ c ≠ ".") :
    l.foldl resolveStep acc = acc ++ l := by
  induction l generalizing acc with
  | nil => simp
  | cons c tl ih =>
      rw [List.foldl_cons]
      have hc := h c (List.mem_cons_self c tl)
      have hstep : resolveStep acc c = acc ++ [c] := by
        unfold resolveStep
        rw [if_neg hc.1, if_neg hc.2]
      rw [hstep, ih (acc ++ [c]) (fun x hx => h x (List.mem_cons_of_mem c hx))]
      simp

/-- C10 (confirmed): the segment lookup does not restrict results to segment
files.  For any file that exists directly inside the session's directory
under a plain name (no slash, not "." or ".." — including the playlist file
playlist.m3u8 itself), `fetch_segment` returns that file's contents rather
than a not-found signal. -/
theorem fetch_segment_serves_any_file (fs : FileSys) (dir : List String)
    (name : String) (content : List Nat)
    (hsplit : splitSlash name = [name])
    (hslash : startsWithSlash name = false)
    (hne : name ≠ "") (hdot : name ≠ ".") (hddot : name ≠ "..")
    (hdir : ∀ c ∈ dir, c ≠ ".." ∧ c ≠ ".")
    (hfs : lookupFile fs (dir ++ [name]) = some content) :
    fetch_segment fs dir name = some content := by
  have hjoin : joinPath dir name = dir ++ [name] := by
    unfold joinPath
    rw [hslash, hsplit]
    simp [hne, hdot]
  have hres : resolvePath (joinPath dir name) = dir ++ [name] := by
    rw [hjoin]
    unfold resolvePath
    rw [foldl_resolveStep_clean (dir ++ [name]) []]
    · simp
    · intro c hc
      rcases List.mem_append.mp hc with hcd | hcn
      · exact hdir c hcd
      · rcases List.mem_singleton.mp hcn with rfl
        exact ⟨hddot, hdot⟩
  unfold fetch_segment get_segment_path
  rw [hres, hfs]
  simp
  exact hfs

/-- Filesystem for the any-file witness: a session directory /tmp/s1 holding
both the playlist file and one segment file. -/
def fs10 : FileSys :=
  [(["tmp", "s1", "playlist.m3u8"], [35, 69]),
   (["tmp", "s1", "segment001.mp3"], [9])]

/-- Witness for `fetch_segment_serves_any_file`: requesting the non-segment
name "playlist.m3u8" serves the playlist file's contents. -/
theorem fetch_segment_serves_any_file_witness :
    splitSlash "playlist.m3u8" = ["playlist.m3u8"] ∧
    startsWithSlash "playlist.m3u8" = false ∧
    ("playlist.m3u8" : String) ≠ "" ∧
    ("playlist.m3u8" : String) ≠ "." ∧
    ("playlist.m3u8" : String) ≠ ".." ∧
    (∀ c ∈ ["tmp", "s1"], c ≠ ".." ∧ c ≠ ".") ∧
    lookupFile fs10 (["tmp", "s1"] ++ ["playlist.m3u8"]) = some [35, 69] ∧
    fetch_segment fs10 ["tmp", "s1"] "playlist.m3u8" = some [35, 69] := by
  have h1 : splitSlash "playlist.m3u8" = ["playlist.m3u8"] := by decide
  have h2 : startsWithSlash "playlist.m3u8" = false := by decide
  have h3 : ("playlist.m3u8" : String) ≠ "" := by decide
  have h4 : ("playlist.m3u8" : String) ≠ "." := by decide
  have h5 : ("playlist.m3u8" : String) ≠ ".." := by decide
  have h6 : ∀ c ∈ (["tmp", "s1"] : List String), c ≠ ".." ∧ c ≠ "." := by decide
  have h7 : lookupFile fs10 (["tmp", "s1"] ++ ["playlist.m3u8"]) = some [35, 69] := by
    decide
  exact ⟨h1, h2, h3, h4, h5, h6, h7,
    fetch_segment_serves_any_file fs10 ["tmp", "s1"] "playlist.m3u8" [35, 69]
      h1 h2 h3 h4 h5 h6 h7⟩
